import Mathlib

/-!
Shallow embedding of the conversation/context state machine of
`src/panels/AIPanel.ts` (the `AIPanel` class): the transcript held in
`this._conversation`, the mutators `_handleRemoveFile`, `_handleAttachCode`,
`_handleClearContext`, `_handleUserMessage`, and the completion call
`_callOpenAI`.  Strings are Lean `String`s; JavaScript's
`String.prototype.includes` is modelled by an executable substring test on
character lists; the external HTTP transport is modelled as an oracle value
describing what `axios.post` would do.
-/

namespace AIPanel

/-- One entry of `this._conversation: Array<{ role: string; content: string }>`. -/
structure Turn where
  role : String
  content : String
deriving DecidableEq, Repr

/-- Boolean prefix test on character lists. -/
def isPrefixB : List Char → List Char → Bool
  | [], _ => true
  | _ :: _, [] => false
  | a :: as, b :: bs => a == b && isPrefixB as bs

/-- Boolean substring (contiguous infix) test on character lists. -/
def isInfixB (sub : List Char) : List Char → Bool
  | [] => isPrefixB sub []
  | c :: rest => isPrefixB sub (c :: rest) || isInfixB sub rest

/-- JavaScript `s.includes(sub)`: `sub` occurs contiguously inside `s`. -/
def strIncludes (s sub : String) : Bool := isInfixB sub.data s.data

/-- The template literal `` `Code attachment - ${fileName}:` `` used by
`_handleRemoveFile` as its search string. -/
def marker (fileName : String) : String := "Code attachment - " ++ fileName ++ ":"

/-- The removal predicate of `_handleRemoveFile`: a turn is dropped iff its
role is `"system"` and its content `includes` the marker. -/
def matchesB (fileName : String) (m : Turn) : Bool :=
  m.role == "system" && strIncludes m.content (marker fileName)

/-- `_handleRemoveFile(fileName)`: `this._conversation.filter(...)` keeping
exactly the turns the predicate does not match. -/
def removeFile (fileName : String) (conv : List Turn) : List Turn :=
  conv.filter (fun m => !(matchesB fileName m))

/-- `this._conversation.push(turn)`. -/
def pushTurn (conv : List Turn) (m : Turn) : List Turn := conv ++ [m]

/-- The system turn built by `_handleAttachCode`: content is the template
literal `` `Code attachment - ${fileName}:\n```\n${text}\n``` ``. -/
def mkAttachTurn (fileName text : String) : Turn :=
  ⟨"system", "Code attachment - " ++ fileName ++ ":\n```\n" ++ text ++ "\n```"⟩

/-- The transcript mutation of `_handleAttachCode` once the editor content has
been resolved: push one system turn. -/
def attachFile (fileName text : String) (conv : List Turn) : List Turn :=
  pushTurn conv (mkAttachTurn fileName text)

/-- `_handleClearContext`: keep only the turns whose role is not `"system"`. -/
def clearContext (conv : List Turn) : List Turn :=
  conv.filter (fun m => m.role != "system")

/-- The serialization used by `_callOpenAI`: the request body's `messages`
field is `this._conversation` itself, unfiltered and in storage order. -/
def asRequestMessages (conv : List Turn) : List Turn := conv

/-- `choices[i].message` of the completion response body. -/
structure Choice where
  message_content : String
deriving DecidableEq, Repr

/-- `response.data`: `choices` is `none` when the field is absent/falsy. -/
structure RespData where
  choices : Option (List Choice)
deriving DecidableEq, Repr

/-- What the external `axios.post` call would do: resolve with a body
(`response.data`, `none` when falsy), reject with an axios error (carrying
`error.response?.data?.error?.message` when present and the raw
`error.message`), or reject with a non-axios error. -/
inductive TransportResult where
  | success (data : Option RespData)
  | axiosErr (upstreamMessage : Option String) (message : String)
  | otherErr (message : String)
deriving DecidableEq, Repr

/-- Result of `_callOpenAI`: the returned string, or the message of the
thrown `Error`. -/
inductive CallResult where
  | ok (content : String)
  | err (message : String)
deriving DecidableEq, Repr

/-- The JSON body `{ model, messages, max_tokens }` posted to the endpoint. -/
structure RequestBody where
  model : String
  messages : List Turn
  max_tokens : Nat
deriving DecidableEq, Repr

/-- Outcome of `_callOpenAI`: its result together with the request actually
posted (`none` when no network call was attempted). -/
structure CallOutcome where
  result : CallResult
  request : Option RequestBody
deriving DecidableEq, Repr

/-- Message of `new Error("Invalid response from OpenAI API")`. -/
def invalidResponseMsg : String := "Invalid response from OpenAI API"

/-- Message of the `Error` thrown when `!apiKey`. -/
def noApiKeyMsg : String :=
  "API key not found. Please set it in the extension settings or .env file."

/-- `_callOpenAI`: throws when the key is falsy (before any network call);
otherwise posts `{model, messages, max_tokens}` and interprets the transport
outcome exactly as the `try`/`catch` does.  The `Error("Invalid response…")`
thrown inside the `try` is not an axios error, so the `catch` rethrows it
unchanged; an axios error is wrapped as
`` `API Error: ${error.response?.data?.error?.message || error.message}` ``. -/
def callOpenAI (apiKey model : String) (maxTokens : Nat) (conv : List Turn)
    (transport : TransportResult) : CallOutcome :=
  if apiKey == "" then ⟨.err noApiKeyMsg, none⟩
  else
    let req : Option RequestBody := some ⟨model, asRequestMessages conv, maxTokens⟩
    match transport with
    | .success none => ⟨.err invalidResponseMsg, req⟩
    | .success (some d) =>
      match d.choices with
      | none => ⟨.err invalidResponseMsg, req⟩
      | some [] => ⟨.err invalidResponseMsg, req⟩
      | some (c :: _) => ⟨.ok c.message_content, req⟩
    | .axiosErr upstream message => ⟨.err ("API Error: " ++ upstream.getD message), req⟩
    | .otherErr message => ⟨.err message, req⟩

/-- Outbound webview events (`_sendMessageToWebview` payloads). -/
inductive Event where
  | response (content : String)
  | error (content : String)
  | codeAttached (fileName content : String)
  | clear
  | contextCleared
deriving DecidableEq, Repr

/-- The `catch` of `_handleUserMessage` formats
`` `Error processing message: ${error}` `` where `error` is an `Error`
object, whose string conversion is `"Error: " + message`. -/
def errEventContent (message : String) : String :=
  "Error processing message: Error: " ++ message

/-- Result of one `askQuestion` action: the transcript afterwards, the events
sent to the webview, and the network request attempted (if any). -/
structure AskOutcome where
  conversation : List Turn
  events : List Event
  request : Option RequestBody
deriving DecidableEq, Repr

/-- `_handleUserMessage(text)`: push the user turn, call `_callOpenAI`, and
— only when the returned string is truthy, i.e. non-empty — push the
assistant turn and send a `response` event; a thrown error becomes a single
`error` event. -/
def handleUserMessage (text apiKey model : String) (maxTokens : Nat)
    (transport : TransportResult) (conv : List Turn) : AskOutcome :=
  let conv1 := pushTurn conv ⟨"user", text⟩
  let o := callOpenAI apiKey model maxTokens conv1 transport
  match o.result with
  | .ok content =>
    if content == "" then ⟨conv1, [], o.request⟩
    else ⟨pushTurn conv1 ⟨"assistant", content⟩, [.response content], o.request⟩
  | .err message => ⟨conv1, [.error (errEventContent message)], o.request⟩

/-- One inbound `attachCode`/`removeFile` action, for reasoning about call
sequences. -/
inductive CallOp where
  | attach (fileName text : String)
  | remove (fileName : String)
deriving DecidableEq, Repr

/-- Apply one action to the transcript. -/
def applyOp (op : CallOp) (conv : List Turn) : List Turn :=
  match op with
  | .attach f c => attachFile f c conv
  | .remove f => removeFile f conv

/-- Run a sequence of attach/remove actions left to right. -/
def runOps (ops : List CallOp) (conv : List Turn) : List Turn :=
  match ops with
  | [] => conv
  | op :: rest => runOps rest (applyOp op conv)

/-- Number of system turns in the transcript matching `fileName` under the
code's own removal predicate. -/
def countMatching (fileName : String) (conv : List Turn) : Nat :=
  (conv.filter (matchesB fileName)).length

/-- Number of `attach` actions for the given name in a sequence. -/
def attachCount (n : String) (ops : List CallOp) : Nat :=
  (ops.filter (fun op => match op with
    | .attach a _ => a == n
    | .remove _ => false)).length

/-- Number of `remove` actions for the given name that occur after at least
one `attach` for that name (`seen` records whether one was seen already). -/
def removeAfterAttachCount (n : String) (ops : List CallOp) (seen : Bool) : Nat :=
  match ops with
  | [] => 0
  | .attach a _ :: rest => removeAfterAttachCount n rest (seen || a == n)
  | .remove m :: rest =>
    (if m == n && seen then 1 else 0) + removeAfterAttachCount n rest seen

/-- The count formula asserted by the specification: attaches minus
removes-after-attach, clamped at 0 (truncated subtraction). -/
def specCount (n : String) (ops : List CallOp) : Nat :=
  attachCount n ops - removeAfterAttachCount n ops false

/-- The count the code actually maintains: attaches for the name since its
most recent remove (a remove for the name resets the count to 0). -/
def netCount (n : String) (ops : List CallOp) (k : Nat) : Nat :=
  match ops with
  | [] => k
  | .attach a _ :: rest => netCount n rest (if a == n then k + 1 else k)
  | .remove m :: rest => netCount n rest (if m == n then 0 else k)

/-- Modelled from the spec: removal keyed on the content *containing* the
marker substring, written as structural recursion (the amended reading of
the `removeFile` contract). -/
def removeFileSubstr (fileName : String) : List Turn → List Turn
  | [] => []
  | m :: rest =>
    if m.role == "system" && strIncludes m.content (marker fileName) then
      removeFileSubstr fileName rest
    else
      m :: removeFileSubstr fileName rest

/-! ### Helper lemmas -/

lemma isPrefixB_refl : ∀ l : List Char, isPrefixB l l = true
  | [] => rfl
  | a :: as => by simp [isPrefixB, isPrefixB_refl as]

lemma isInfixB_append : ∀ (l s : List Char), isInfixB s (l ++ s) = true
  | [], [] => rfl
  | [], c :: cs => by
    show isInfixB (c :: cs) (c :: cs) = true
    simp [isInfixB, isPrefixB_refl]
  | c :: l, s => by simp [isInfixB, isInfixB_append l s]

lemma strIncludes_right (a s : String) : strIncludes (a ++ s) s = true := by
  have h : (a ++ s).data = a.data ++ s.data := rfl
  unfold strIncludes
  rw [h]
  exact isInfixB_append a.data s.data

lemma strIncludes_right2 (a b s : String) : strIncludes (a ++ (b ++ s)) s = true := by
  rw [← String.append_assoc]
  exact strIncludes_right (a ++ b) s

lemma api_error_ne_invalid (s : String) : "API Error: " ++ s ≠ invalidResponseMsg := by
  intro h
  have h1 := congrArg String.data h
  have h2 : ("API Error: " ++ s).data = 'A' :: ("PI Error: " ++ s).data := rfl
  have h3 : invalidResponseMsg.data = 'I' :: "nvalid response from OpenAI API".data := rfl
  rw [h2, h3] at h1
  exact absurd (List.cons_eq_cons.mp h1).1 (by decide)

/-! ### Claims -/

/-- Claim C2, counterexample: `removeFile "f"` deletes a system turn whose
content contains — but does not begin with — the prefix
`"Code attachment - f:"`, so removal is not keyed on "begins with". -/
theorem removeFile_prefix_cex :
    removeFile "f" [⟨"system", "x Code attachment - f:"⟩] = [] ∧
    isPrefixB (marker "f").data "x Code attachment - f:".data = false := by
  decide

/-- Claim C2 (amended): `removeFile fileName` removes exactly those turns
with role `system` whose content *contains* the substring
`"Code attachment - {fileName}:"`, and no other turn — it coincides with the
recursive removal keyed on substring containment. -/
theorem removeFile_eq_substr (f : String) (t : List Turn) :
    removeFile f t = removeFileSubstr f t := by
  induction t with
  | nil => rfl
  | cons m rest ih =>
    unfold removeFile removeFileSubstr
    rw [List.filter_cons]
    cases h : (m.role == "system" && strIncludes m.content (marker f)) with
    | true => simp [matchesB, h, ← ih, removeFile]
    | false => simp [matchesB, h, ← ih, removeFile]

/-- Claim C7: after `clearContext`, the request-message projection contains
no system turn, and its non-system turns are exactly those of the original
transcript, in the same order. -/
theorem clearContext_spec (t : List Turn) :
    (asRequestMessages (clearContext t)).filter (fun m => m.role == "system") = [] ∧
    (asRequestMessages (clearContext t)).filter (fun m => m.role != "system")
      = (asRequestMessages t).filter (fun m => m.role != "system") := by
  constructor
  · show (List.filter _ (List.filter _ t)) = []
    rw [List.filter_filter]
    have h : ∀ m ∈ t, ((m.role == "system") && (m.role != "system")) = (fun _ => false) m := by
      intro m _
      cases hs : (m.role == "system") <;> simp [bne, hs]
    rw [List.filter_congr h, List.filter_false]
  · show (List.filter _ (List.filter _ t)) = List.filter _ t
    rw [List.filter_filter]
    exact List.filter_congr (fun m _ => Bool.and_self _)

/-- Claim C8: `asRequestMessages` preserves storage order with no filtering:
pushing turns A, B, C onto the empty transcript and projecting yields
exactly [A, B, C], wherever a system turn sits among them. -/
theorem asRequestMessages_order (A B C : Turn) :
    asRequestMessages (pushTurn (pushTurn (pushTurn [] A) B) C) = [A, B, C] := by
  simp [asRequestMessages, pushTurn]

/-- Claim C9: `removeFile` is idempotent on every transcript, and when no
turn matches the removal predicate it is a no-op. -/
theorem removeFile_idempotent (f : String) (t : List Turn) :
    removeFile f (removeFile f t) = removeFile f t ∧
    ((∀ m ∈ t, matchesB f m = false) → removeFile f t = t) := by
  constructor
  · unfold removeFile
    rw [List.filter_filter]
    exact List.filter_congr (fun m _ => Bool.and_self _)
  · intro h
    apply List.filter_eq_self.mpr
    intro m hm
    simp [h m hm]

/-- Claim C9, witness at a concrete transcript with no matching turn. -/
theorem removeFile_idempotent_witness :
    removeFile "x" (removeFile "x" [⟨"user", "hi"⟩]) = removeFile "x" [⟨"user", "hi"⟩] ∧
    removeFile "x" [⟨"user", "hi"⟩] = [⟨"user", "hi"⟩] :=
  ⟨(removeFile_idempotent "x" [⟨"user", "hi"⟩]).1,
   (removeFile_idempotent "x" [⟨"user", "hi"⟩]).2 (by decide)⟩

/-- Claim C10: `removeFile` returns a sublist of the transcript (surviving
turns keep their contents and relative order) and never removes a turn whose
role is `user` or `assistant`, whatever its content. -/
theorem removeFile_frame (f : String) (t : List Turn) :
    List.Sublist (removeFile f t) t ∧
    (removeFile f t).filter (fun m => m.role == "user" || m.role == "assistant")
      = t.filter (fun m => m.role == "user" || m.role == "assistant") := by
  constructor
  · exact List.filter_sublist t
  · unfold removeFile
    rw [List.filter_filter]
    apply List.filter_congr
    intro m _
    by_cases hs : m.role = "system"
    · simp [hs, matchesB]
    · simp [matchesB, hs]

/-- Claim C3, counterexample: a successful completion whose
`choices[0].message.content` is the empty string produces *zero* outbound
events and appends no assistant turn, because `if (response)` is falsy on
the empty string. -/
theorem askQuestion_one_event_cex :
    (callOpenAI "key" "gpt" 5 (pushTurn [] ⟨"user", "hi"⟩)
        (.success (some ⟨some [⟨""⟩]⟩))).result = .ok "" ∧
    (handleUserMessage "hi" "key" "gpt" 5 (.success (some ⟨some [⟨""⟩]⟩)) []).events = [] ∧
    (handleUserMessage "hi" "key" "gpt" 5 (.success (some ⟨some [⟨""⟩]⟩)) []).conversation
      = [⟨"user", "hi"⟩] := by
  decide

/-- Claim C3 (amended): every `askQuestion` produces exactly one outbound
event — a `response` on a successful non-empty completion (with the
assistant turn appended) or an `error` on failure — except that a
successful completion whose content is the empty string produces no event
and appends no assistant turn. -/
theorem askQuestion_one_event (text apiKey model : String) (mt : Nat)
    (transport : TransportResult) (conv : List Turn) :
    match (callOpenAI apiKey model mt (pushTurn conv ⟨"user", text⟩) transport).result with
    | .ok c =>
      if c = "" then
        (handleUserMessage text apiKey model mt transport conv).events = [] ∧
        (handleUserMessage text apiKey model mt transport conv).conversation
          = pushTurn conv ⟨"user", text⟩
      else
        (handleUserMessage text apiKey model mt transport conv).events = [.response c] ∧
        (handleUserMessage text apiKey model mt transport conv).conversation
          = pushTurn (pushTurn conv ⟨"user", text⟩) ⟨"assistant", c⟩
    | .err m =>
      (handleUserMessage text apiKey model mt transport conv).events
        = [.error (errEventContent m)] ∧
      (handleUserMessage text apiKey model mt transport conv).conversation
        = pushTurn conv ⟨"user", text⟩ := by
  cases hr : (callOpenAI apiKey model mt (pushTurn conv ⟨"user", text⟩) transport).result with
  | ok c =>
    by_cases hc : c = ""
    · subst hc
      simp [handleUserMessage, hr]
    · simp [handleUserMessage, hr, hc]
  | err m =>
    simp [handleUserMessage, hr]

/-- Claim C4: when the completion call fails with an axios error, exactly
one `error` event is emitted, its text contains the upstream error message
when present (else the raw transport message), the user turn stays appended
and no assistant turn is added. -/
theorem askQuestion_api_error (text apiKey model : String) (mt : Nat)
    (conv : List Turn) (up : Option String) (msg : String) (h : apiKey ≠ "") :
    (handleUserMessage text apiKey model mt (.axiosErr up msg) conv).events
      = [.error (errEventContent ("API Error: " ++ up.getD msg))] ∧
    strIncludes (errEventContent ("API Error: " ++ up.getD msg)) (up.getD msg) = true ∧
    (handleUserMessage text apiKey model mt (.axiosErr up msg) conv).conversation
      = pushTurn conv ⟨"user", text⟩ := by
  have hk : (apiKey == "") = false := by simp [h]
  refine ⟨?_, ?_, ?_⟩
  · simp [handleUserMessage, callOpenAI, hk]
  · exact strIncludes_right2 "Error processing message: Error: " "API Error: " (up.getD msg)
  · simp [handleUserMessage, callOpenAI, hk]

/-- Claim C4, witness: a 401 with upstream payload `invalid_api_key`. -/
theorem askQuestion_api_error_witness :
    ("sk" : String) ≠ "" ∧
    (handleUserMessage "hi" "sk" "gpt" 5
        (.axiosErr (some "invalid_api_key") "Request failed with status code 401") []).events
      = [.error (errEventContent
          ("API Error: " ++ (some "invalid_api_key").getD "Request failed with status code 401"))] :=
  ⟨by decide,
   (askQuestion_api_error "hi" "sk" "gpt" 5 [] (some "invalid_api_key")
      "Request failed with status code 401" (by decide)).1⟩

/-- Claim C5: with an empty API key, no network request is built, the ask
yields exactly one `error` event whose text references the missing API key,
and the user turn is still appended. -/
theorem askQuestion_no_api_key (text model : String) (mt : Nat)
    (transport : TransportResult) (conv : List Turn) :
    (handleUserMessage text "" model mt transport conv).request = none ∧
    (handleUserMessage text "" model mt transport conv).events
      = [.error (errEventContent noApiKeyMsg)] ∧
    strIncludes (errEventContent noApiKeyMsg) "API key" = true ∧
    (handleUserMessage text "" model mt transport conv).conversation
      = pushTurn conv ⟨"user", text⟩ := by
  refine ⟨?_, ?_, by decide, ?_⟩ <;> simp [handleUserMessage, callOpenAI]

/-- Claim C6: a body with a non-empty `choices` array returns
`choices[0].message.content`; a missing or empty `choices` (or missing body)
yields the distinct `InvalidResponse` error, which no axios transport error
can produce. -/
theorem callOpenAI_choices (apiKey model : String) (mt : Nat) (conv : List Turn)
    (h : apiKey ≠ "") :
    (∀ c cs, (callOpenAI apiKey model mt conv (.success (some ⟨some (c :: cs)⟩))).result
        = .ok c.message_content) ∧
    (callOpenAI apiKey model mt conv (.success (some ⟨none⟩))).result
      = .err invalidResponseMsg ∧
    (callOpenAI apiKey model mt conv (.success (some ⟨some []⟩))).result
      = .err invalidResponseMsg ∧
    (callOpenAI apiKey model mt conv (.success none)).result = .err invalidResponseMsg ∧
    (∀ up msg, (callOpenAI apiKey model mt conv (.axiosErr up msg)).result
        ≠ .err invalidResponseMsg) := by
  have hk : (apiKey == "") = false := by simp [h]
  refine ⟨fun c cs => by simp [callOpenAI, hk], by simp [callOpenAI, hk],
    by simp [callOpenAI, hk], by simp [callOpenAI, hk], fun up msg => ?_⟩
  simp only [callOpenAI, hk, Bool.false_eq_true, if_false, ne_eq, CallResult.err.injEq]
  exact api_error_ne_invalid (up.getD msg)

/-- Claim C6, witness: one choice with content `"hello"` is returned. -/
theorem callOpenAI_choices_witness :
    ("sk" : String) ≠ "" ∧
    (callOpenAI "sk" "gpt" 5 [] (.success (some ⟨some [⟨"hello"⟩]⟩))).result = .ok "hello" :=
  ⟨by decide, (callOpenAI_choices "sk" "gpt" 5 [] (by decide)).1 ⟨"hello"⟩ []⟩

lemma countMatching_append_one (n : String) (t : List Turn) (x : Turn) :
    countMatching n (t ++ [x])
      = countMatching n t + (if matchesB n x = true then 1 else 0) := by
  unfold countMatching
  rw [List.filter_append, List.length_append]
  cases h : matchesB n x <;> simp [List.filter_cons, h]

lemma countMatching_remove_self (n : String) (t : List Turn) :
    countMatching n (removeFile n t) = 0 := by
  unfold countMatching removeFile
  rw [List.filter_filter]
  have h : ∀ x ∈ t, (matchesB n x && !(matchesB n x)) = (fun _ => false) x := by
    intro x _
    cases matchesB n x <;> rfl
  rw [List.filter_congr h, List.filter_false]
  rfl

/-- Main invariant for attach/remove sequences: provided every attached turn
in the sequence matches the queried name `n` exactly when attached under
`n`, and matches a removed name exactly when attached under it, the number
of matching turns evolves as a counter that a matching remove resets. -/
lemma countMatching_runOps (n : String) (ops : List CallOp) (t : List Turn)
    (h1 : ∀ a c, CallOp.attach a c ∈ ops → matchesB n (mkAttachTurn a c) = (a == n))
    (h2 : ∀ a c m, CallOp.attach a c ∈ ops → CallOp.remove m ∈ ops →
      matchesB m (mkAttachTurn a c) = (a == m))
    (hinv : ∀ x ∈ t, matchesB n x = true →
      ∀ m, CallOp.remove m ∈ ops → m ≠ n → matchesB m x = false) :
    countMatching n (runOps ops t) = netCount n ops (countMatching n t) := by
  induction ops generalizing t with
  | nil => rfl
  | cons op rest ih =>
    cases op with
    | attach a c =>
      have hT : matchesB n (mkAttachTurn a c) = (a == n) :=
        h1 a c (List.mem_cons_self _ _)
      have hrun : runOps (CallOp.attach a c :: rest) t
          = runOps rest (t ++ [mkAttachTurn a c]) := rfl
      rw [hrun]
      have hstep := ih (t ++ [mkAttachTurn a c])
        (fun a' c' hm => h1 a' c' (List.mem_cons_of_mem _ hm))
        (fun a' c' m hma hmr =>
          h2 a' c' m (List.mem_cons_of_mem _ hma) (List.mem_cons_of_mem _ hmr))
        ?_
      · rw [hstep, countMatching_append_one]
        show netCount n rest _ = netCount n rest _
        cases han : (a == n) with
        | true => simp [hT, han]
        | false => simp [hT, han]
      · intro x hx hmx m hm hne
        rcases List.mem_append.mp hx with hxt | hxT
        · exact hinv x hxt hmx m (List.mem_cons_of_mem _ hm) hne
        · have hxe : x = mkAttachTurn a c := by simpa using hxT
          subst hxe
          have hmm : matchesB m (mkAttachTurn a c) = (a == m) :=
            h2 a c m (List.mem_cons_self _ _) (List.mem_cons_of_mem _ hm)
          have han : a = n := by
            rw [hT] at hmx
            exact beq_iff_eq.mp hmx
          rw [hmm, han]
          exact beq_eq_false_iff_ne.mpr (fun hh => hne hh.symm)
    | remove m =>
      cases hmn : (m == n) with
      | true =>
        have hm : m = n := beq_iff_eq.mp hmn
        subst hm
        have hrun : runOps (CallOp.remove m :: rest) t
            = runOps rest (removeFile m t) := rfl
        rw [hrun]
        have hstep := ih (removeFile m t)
          (fun a' c' hma => h1 a' c' (List.mem_cons_of_mem _ hma))
          (fun a' c' m' hma hmr =>
            h2 a' c' m' (List.mem_cons_of_mem _ hma) (List.mem_cons_of_mem _ hmr))
          ?_
        · rw [hstep, countMatching_remove_self]
          simp [netCount]
        · intro x hx hmx m' hm' hne
          exact hinv x (List.mem_of_mem_filter hx) hmx m'
            (List.mem_cons_of_mem _ hm') hne
      | false =>
        have hne : m ≠ n := by
          intro hh
          subst hh
          simp at hmn
        have hrun : runOps (CallOp.remove m :: rest) t
            = runOps rest (removeFile m t) := rfl
        rw [hrun]
        have hcEq : countMatching n (removeFile m t) = countMatching n t := by
          unfold countMatching removeFile
          rw [List.filter_filter]
          have hfc : List.filter (fun a => matchesB n a && !(matchesB m a)) t
              = List.filter (matchesB n) t := by
            apply List.filter_congr
            intro x hx
            cases hnx : matchesB n x with
            | false => rfl
            | true =>
              have hmf : matchesB m x = false :=
                hinv x hx hnx m (List.mem_cons_self _ _) hne
              simp [hmf]
          rw [hfc]
        have hstep := ih (removeFile m t)
          (fun a' c' hma => h1 a' c' (List.mem_cons_of_mem _ hma))
          (fun a' c' m' hma hmr =>
            h2 a' c' m' (List.mem_cons_of_mem _ hma) (List.mem_cons_of_mem _ hmr))
          ?_
        · rw [hstep, hcEq]
          show netCount n rest _ = netCount n rest _
          simp [hmn]
        · intro x hx hmx m' hm' hne'
          exact hinv x (List.mem_of_mem_filter hx) hmx m'
            (List.mem_cons_of_mem _ hm') hne'

/-- Claim C1, counterexample: attaching `"a"` twice and removing it once
leaves 0 matching system turns (the remove drops *all* matching turns),
while the claimed formula (#attach − #removes-after-attach, clamped at 0)
gives 2 − 1 = 1. -/
theorem attach_remove_count_cex :
    countMatching "a"
        (runOps [CallOp.attach "a" "x", CallOp.attach "a" "y", CallOp.remove "a"] []) = 0 ∧
    specCount "a" [CallOp.attach "a" "x", CallOp.attach "a" "y", CallOp.remove "a"] = 1 := by
  decide

/-- Claim C1 (amended): for every attach/remove sequence from the empty
transcript in which each attached turn matches the queried name exactly when
attached under it, and matches each removed name exactly when attached under
it, the number of matching system turns equals the number of attaches for
that name made after its most recent remove (all of them when none). -/
theorem attach_remove_count (n : String) (ops : List CallOp)
    (h1 : ∀ a c, CallOp.attach a c ∈ ops → matchesB n (mkAttachTurn a c) = (a == n))
    (h2 : ∀ a c m, CallOp.attach a c ∈ ops → CallOp.remove m ∈ ops →
      matchesB m (mkAttachTurn a c) = (a == m)) :
    countMatching n (runOps ops []) = netCount n ops 0 :=
  countMatching_runOps n ops [] h1 h2 (by intro x hx; simp at hx)

/-- Claim C1, witness: attach `"a"`, remove it, attach it again — one
matching turn remains, as the reset counter predicts. -/
theorem attach_remove_count_witness :
    countMatching "a"
        (runOps [CallOp.attach "a" "x", CallOp.remove "a", CallOp.attach "a" "y"] []) = 1 ∧
    netCount "a" [CallOp.attach "a" "x", CallOp.remove "a", CallOp.attach "a" "y"] 0 = 1 := by
  have h := attach_remove_count "a"
    [CallOp.attach "a" "x", CallOp.remove "a", CallOp.attach "a" "y"]
    (by
      intro a c hm
      simp at hm
      rcases hm with ⟨rfl, rfl⟩ | ⟨rfl, rfl⟩ <;> decide)
    (by
      intro a c m hma hmr
      simp at hma hmr
      subst hmr
      rcases hma with ⟨rfl, rfl⟩ | ⟨rfl, rfl⟩ <;> decide)
  refine ⟨?_, by decide⟩
  rw [h]
  decide

end AIPanel
